import Mathlib

/-
  Verification of the chip9 CHIP-8 emulator core.

  Shallow embedding of the interpreter found in src/chip9/cpu.rs,
  src/chip9/cpu/timer_clock.rs, src/chip8/display.rs and
  src/chip8/keyboard.rs.  Machine integers (u8, u16, the 12-bit address
  type) are embedded as Nat with explicit reductions modulo 256 / 4096
  at the points where the Rust code wraps.  Rust panics (array index out
  of bounds, overflow-checked integer arithmetic) are embedded as
  Option.none.  The opcode decoder and the raw memory type live in
  repository modules that are not part of the source tree given here;
  those two pieces are modelled from the specification and are marked as
  such in their doc comments.
-/

set_option maxRecDepth 4000

/-- General purpose register file: 16 eight-bit registers (values kept as
Nat, reduced mod 256 by every operation that wraps in the Rust code). -/
abbrev Regs := Fin 16 → Nat

/-- Modelled from the spec: the Registers helper type (registers.rs is not
in the source tree).  The last register V15 doubles as the
carry/borrow/collision flag; set_flag writes it. -/
def Regs.set_flag (r : Regs) (v : Nat) : Regs :=
  Function.update r 15 v

/-- Modelled from the spec: accessor for register V0 (registers.rs is not
in the source tree). -/
def Regs.v0 (r : Regs) : Nat := r 0

/-- Byte-addressable machine memory: 4096 cells (src/chip9/cpu.rs field
mem; the concrete Memory type is modelled from the spec). -/
abbrev Mem := Fin 4096 → Nat

/-- Modelled from the spec: memory read at a 12-bit wrapped address
(Memory::read_byte; memory.rs is not in the source tree, the spec fixes
the wrap-to-12-bits address policy). -/
def Mem.read_byte (m : Mem) (a : Nat) : Nat :=
  m ⟨a % 4096, Nat.mod_lt _ (by norm_num)⟩

/-- Modelled from the spec: memory write at a 12-bit wrapped address
(Memory::write_byte; memory.rs is not in the source tree). -/
def Mem.write_byte (m : Mem) (a v : Nat) : Mem :=
  Function.update m ⟨a % 4096, Nat.mod_lt _ (by norm_num)⟩ v

/-- Modelled from the spec: big-endian fetch of two consecutive 8-bit
cells as one 16-bit instruction word (Memory::get_instruction; memory.rs
is not in the source tree, the spec fixes big-endian order).  The mod 256
reductions reflect the u8 cell type. -/
def Mem.get_instruction (m : Mem) (a : Nat) : Nat :=
  256 * (m.read_byte a % 256) + (m.read_byte (a + 1) % 256)

/-- CPU state, mirroring struct CPU in src/chip9/cpu.rs.  The two timer
values dt and st stand for the current counters of the shared Timer
cells. -/
structure CPU where
  regs : Regs
  idx : Nat
  dt : Nat
  st : Nat
  pc : Nat
  sp : Nat
  stack : Fin 16 → Nat
  mem : Mem

/-- The freshly constructed CPU of CPU::new (all registers zero, program
counter at 0x200). -/
def CPU.new : CPU :=
  { regs := fun _ => 0, idx := 0, dt := 0, st := 0, pc := 0x200,
    sp := 0, stack := fun _ => 0, mem := fun _ => 0 }

/-- CPU::add_reg (src/chip9/cpu.rs lines 191-195): overflowing add of Vy
into Vx; the flag register is written with the carry first, then Vx is
overwritten with the wrapped sum. -/
def CPU.add_reg (c : CPU) (vx vy : Fin 16) : CPU :=
  let a := c.regs vx
  let b := c.regs vy
  let sum := (a + b) % 256
  let carry := if 256 ≤ a + b then 1 else 0
  { c with regs := Function.update (c.regs.set_flag carry) vx sum }

/-- CPU::sub_reg (src/chip9/cpu.rs lines 197-201): overflowing subtract of
Vy from Vx; the flag register is written with not-borrow first, then Vx
is overwritten with the wrapped difference. -/
def CPU.sub_reg (c : CPU) (vx vy : Fin 16) : CPU :=
  let a := c.regs vx
  let b := c.regs vy
  let diff := (a + 256 - b) % 256
  let nb := if a < b then 0 else 1
  { c with regs := Function.update (c.regs.set_flag nb) vx diff }

/-- CPU::subn_reg (src/chip9/cpu.rs lines 209-213): like sub_reg with the
operands reversed, Vx receives Vy - Vx. -/
def CPU.subn_reg (c : CPU) (vx vy : Fin 16) : CPU :=
  let a := c.regs vx
  let b := c.regs vy
  let diff := (b + 256 - a) % 256
  let nb := if b < a then 0 else 1
  { c with regs := Function.update (c.regs.set_flag nb) vx diff }

/-- CPU::shr_reg (src/chip9/cpu.rs lines 203-207): the flag register is
written with the low bit of Vx first, then Vx is shifted right by one. -/
def CPU.shr_reg (c : CPU) (vx : Fin 16) : CPU :=
  let low := c.regs vx % 2
  let r := c.regs.set_flag low
  { c with regs := Function.update r vx (r vx / 2) }

/-- CPU::shl_reg (src/chip9/cpu.rs lines 215-219): the flag register is
written with the high bit of Vx first, then Vx is shifted left by one
(wrapping in u8). -/
def CPU.shl_reg (c : CPU) (vx : Fin 16) : CPU :=
  let high := c.regs vx / 128
  let r := c.regs.set_flag high
  { c with regs := Function.update r vx (r vx * 2 % 256) }

/-- Concrete state for exercising add_reg: V0 = 0xFF, V1 = 0x01, and
V15 = 0xFF for the flag-register corner. -/
def cpuAdd : CPU :=
  { CPU.new with regs :=
      Function.update (Function.update (Function.update (fun _ => 0)
        0 0xFF) 1 0x01) 15 0xFF }

/-- Concrete state for exercising sub_reg / subn_reg: V0 = 0x05,
V1 = 0x0A, V15 = 0x05. -/
def cpuSub : CPU :=
  { CPU.new with regs :=
      Function.update (Function.update (Function.update (fun _ => 0)
        0 0x05) 1 0x0A) 15 0x05 }

/-- Concrete state for exercising the shifts: V0 = 0x05, V15 = 0x01. -/
def cpuShift : CPU :=
  { CPU.new with regs :=
      Function.update (Function.update (fun _ => 0) 0 0x05) 15 0x01 }

/-- Monochrome display grid, 64 columns by 32 rows (src/chip8/display.rs,
field grid, indexed column first as in the source). -/
abbrev Grid := Fin 64 → Fin 32 → Bool

/-- Horizontal wrap of a column index (the mod DISPLAY_WIDTH in
Display::draw). -/
def cellX (x : Nat) : Fin 64 := ⟨x % 64, Nat.mod_lt _ (by norm_num)⟩

/-- Vertical wrap of a row index (the mod DISPLAY_HEIGHT in
Display::draw). -/
def cellY (y : Nat) : Fin 32 := ⟨y % 32, Nat.mod_lt _ (by norm_num)⟩

/-- Pointwise update of one grid cell. -/
def Grid.set (g : Grid) (a : Fin 64) (b : Fin 32) (v : Bool) : Grid :=
  fun i j => if i = a ∧ j = b then v else g i j

/-- Bit i (counting from the left) of a sprite byte: the test
(byte & (0x80 >> i)) != 0 in Display::draw. -/
def spriteBit (byte i : Nat) : Bool := decide (byte &&& (0x80 >>> i) ≠ 0)

/-- Inner loop of Display::draw over the 8 bits of one sprite byte at row
yj: XOR each bit onto the wrapped cell, accumulating the collision
flag old && !new. -/
def Display.drawAux (x yj byte : Nat) (acc : Grid × Bool) : Grid × Bool :=
  (List.range 8).foldl (fun p i =>
    let xi := cellX (x + i)
    let yc := cellY yj
    let old := p.1 xi yc
    let nb := spriteBit byte i
    (p.1.set xi yc (xor old nb), p.2 || (old && !(xor old nb)))) acc

/-- Display::draw (src/chip8/display.rs lines 20-33): XOR-composite the
sprite bytes onto the grid at (x, y) with independent wraparound,
returning the updated grid and the collision flag. -/
def Display.draw (g : Grid) (x y : Nat) (sprite : List Nat) : Grid × Bool :=
  sprite.enum.foldl (fun acc jb => Display.drawAux x (y + jb.1) jb.2 acc) (g, false)

/-- One XOR visit of Display::draw: target cell and sprite bit. -/
abbrev Visit := (Fin 64 × Fin 32) × Bool

/-- The sequence of cell visits performed by Display::draw for a sprite
drawn at (x, y): bytes in order, bits left to right, coordinates wrapped
independently. -/
def visits (x y : Nat) (sprite : List Nat) : List Visit :=
  sprite.enum.flatMap (fun jb =>
    (List.range 8).map (fun i =>
      ((cellX (x + i), cellY (y + jb.1)), spriteBit jb.2 i)))

/-- XOR one visit into a grid. -/
def Grid.toggle (g : Grid) (v : Visit) : Grid :=
  g.set v.1.1 v.1.2 (xor (g v.1.1 v.1.2) v.2)

/-- One visit of the draw loop on a grid/collision pair; the collision
increment old && bit is the simplified form of the old && !new test of
the source. -/
def visitStep (p : Grid × Bool) (v : Visit) : Grid × Bool :=
  (p.1.toggle v, p.2 || (p.1 v.1.1 v.1.2 && v.2))

/-- Replay a visit list on a grid/collision pair. -/
def applyVisits (p : Grid × Bool) (L : List Visit) : Grid × Bool :=
  L.foldl visitStep p

/-- Scan a visit list, flagging the visits where the current cell value
satisfies φ and the sprite bit is set; with φ = id this is the collision
flag (a lit pixel is toggled off), with φ = not it flags an unlit pixel
being toggled on. -/
def scanBy (φ : Bool → Bool) : Grid → List Visit → Bool
  | _, [] => false
  | g, v :: L => (φ (g v.1.1 v.1.2) && v.2) || scanBy φ (g.toggle v) L

/-- The sprite bits aimed at one particular cell, in visit order. -/
def bitsAt : List Visit → Fin 64 → Fin 32 → List Bool
  | [], _, _ => []
  | v :: L, a, b => if v.1 = (a, b) then v.2 :: bitsAt L a b else bitsAt L a b

/-- XOR of a list of bits. -/
def xorAll : List Bool → Bool
  | [] => false
  | b :: bs => xor b (xorAll bs)

/-- Single-cell version of scanBy: run the bit list against one cell
value. -/
def runBy (φ : Bool → Bool) : Bool → List Bool → Bool
  | _, [] => false
  | v, b :: bs => (φ v && b) || runBy φ (xor v b) bs

/-- Keyboard pressed state (src/chip8/keyboard.rs field pressed). -/
abbrev Keyboard := Fin 16 → Bool

/-- Keyboard::is_key_pressed (src/chip8/keyboard.rs): bounds-checked
lookup returning false outside 0..15. -/
def Keyboard.is_key_pressed (kb : Keyboard) (key : Nat) : Bool :=
  if h : key < 16 then kb ⟨key, h⟩ else false

/-- Keyboard::get_key_press (src/chip8/keyboard.rs): the first pressed
key, if any. -/
def Keyboard.get_key_press (kb : Keyboard) : Option (Fin 16) :=
  (List.finRange 16).find? (fun k => kb k)

/-- Timer::load (src/chip9/cpu/timer_clock.rs line 19): store a u8 value
into the counter. -/
def Timer.load (v : Nat) : Nat := v % 256

/-- Timer::get (src/chip9/cpu/timer_clock.rs line 20): read the
counter. -/
def Timer.get (v : Nat) : Nat := v

/-- Timer::tick (src/chip9/cpu/timer_clock.rs lines 21-27): atomically
checked decrement; the fetch_update closure decrements a positive value
and leaves zero unchanged. -/
def Timer.tick (v : Nat) : Nat := if 0 < v then v - 1 else v

/-- The error enum of src/errors.rs (the minifb payloads of the two
window errors are irrelevant here and dropped). -/
inductive Chip9Error where
  | FileReadError (path : String)
  | MissingFilePath
  | TooManyLines (lines available : Nat)
  | UnrecognizedOpcode (op : Nat)
  | WindowCreationError
  | WindowUpdateError
  deriving DecidableEq

/-- The decoded instruction variants dispatched by CPU::execute
(src/chip9/cpu.rs lines 85-121).  Register indices are nibbles,
addresses 12-bit values, immediates bytes. -/
inductive OpCode where
  | NoOp
  | ClearScreen
  | Return
  | Jump (addr : Nat)
  | Call (addr : Nat)
  | SkipEqualByte (x : Fin 16) (b : Nat)
  | SkipNotEqualByte (x : Fin 16) (b : Nat)
  | SkipEqualReg (x y : Fin 16)
  | LoadByte (x : Fin 16) (b : Nat)
  | AddByte (x : Fin 16) (b : Nat)
  | LoadReg (x y : Fin 16)
  | OrReg (x y : Fin 16)
  | AndReg (x y : Fin 16)
  | XorReg (x y : Fin 16)
  | AddReg (x y : Fin 16)
  | SubReg (x y : Fin 16)
  | ShiftRight (x y : Fin 16)
  | SubNot (x y : Fin 16)
  | ShiftLeft (x y : Fin 16)
  | SkipNotEqualReg (x y : Fin 16)
  | LoadIndex (addr : Nat)
  | JumpV0 (addr : Nat)
  | RandomByte (x : Fin 16) (b : Nat)
  | Draw (x y n : Fin 16)
  | SkipKeyPressed (x : Fin 16)
  | SkipKeyNotPressed (x : Fin 16)
  | LoadDelay (x : Fin 16)
  | WaitKey (x : Fin 16)
  | SetDelay (x : Fin 16)
  | SetSound (x : Fin 16)
  | AddToIndex (x : Fin 16)
  | LoadFont (x : Fin 16)
  | LoadBCD (x : Fin 16)
  | StoreRegs (x : Fin 16)
  | LoadRegs (x : Fin 16)
  deriving DecidableEq

/-- Modelled from the spec: the pattern table of the pure opcode decoder
(opcode.rs is not in the source tree).  The table is the standard CHIP-8
one, selecting on the high nibble and then on the sub-selector, covering
exactly the variants dispatched by CPU::execute; none means no pattern
matches. -/
def OpCode.decodeCore (w : Nat) : Option OpCode :=
  let n3 := w / 4096 % 16
  let x : Fin 16 := ⟨w / 256 % 16, Nat.mod_lt _ (by norm_num)⟩
  let y : Fin 16 := ⟨w / 16 % 16, Nat.mod_lt _ (by norm_num)⟩
  let n : Fin 16 := ⟨w % 16, Nat.mod_lt _ (by norm_num)⟩
  let kk := w % 256
  let nnn := w % 4096
  if n3 = 0 then
    if nnn = 0xE0 then some .ClearScreen
    else if nnn = 0xEE then some .Return
    else if nnn = 0 then some .NoOp
    else none
  else if n3 = 1 then some (.Jump nnn)
  else if n3 = 2 then some (.Call nnn)
  else if n3 = 3 then some (.SkipEqualByte x kk)
  else if n3 = 4 then some (.SkipNotEqualByte x kk)
  else if n3 = 5 then
    if n.val = 0 then some (.SkipEqualReg x y) else none
  else if n3 = 6 then some (.LoadByte x kk)
  else if n3 = 7 then some (.AddByte x kk)
  else if n3 = 8 then
    if n.val = 0 then some (.LoadReg x y)
    else if n.val = 1 then some (.OrReg x y)
    else if n.val = 2 then some (.AndReg x y)
    else if n.val = 3 then some (.XorReg x y)
    else if n.val = 4 then some (.AddReg x y)
    else if n.val = 5 then some (.SubReg x y)
    else if n.val = 6 then some (.ShiftRight x y)
    else if n.val = 7 then some (.SubNot x y)
    else if n.val = 14 then some (.ShiftLeft x y)
    else none
  else if n3 = 9 then
    if n.val = 0 then some (.SkipNotEqualReg x y) else none
  else if n3 = 10 then some (.LoadIndex nnn)
  else if n3 = 11 then some (.JumpV0 nnn)
  else if n3 = 12 then some (.RandomByte x kk)
  else if n3 = 13 then some (.Draw x y n)
  else if n3 = 14 then
    if kk = 0x9E then some (.SkipKeyPressed x)
    else if kk = 0xA1 then some (.SkipKeyNotPressed x)
    else none
  else
    if kk = 0x07 then some (.LoadDelay x)
    else if kk = 0x0A then some (.WaitKey x)
    else if kk = 0x15 then some (.SetDelay x)
    else if kk = 0x18 then some (.SetSound x)
    else if kk = 0x1E then some (.AddToIndex x)
    else if kk = 0x29 then some (.LoadFont x)
    else if kk = 0x33 then some (.LoadBCD x)
    else if kk = 0x55 then some (.StoreRegs x)
    else if kk = 0x65 then some (.LoadRegs x)
    else none

/-- Modelled from the spec: OpCode::decode (opcode.rs is not in the
source tree): a word matching no known pattern is a hard decode error
carrying the offending word. -/
def OpCode.decode (w : Nat) : Except Chip9Error OpCode :=
  match OpCode.decodeCore w with
  | some op => .ok op
  | none => .error (.UnrecognizedOpcode w)

/-- CPU::return_subroutine (src/chip9/cpu.rs lines 130-133): the return
address is read from stack[sp], then sp is decremented.  With sp = 0 the
u8 decrement underflows (an overflow-checked hard failure), and sp ≥ 16
makes the stack read itself out of bounds; both panics are none. -/
def CPU.return_subroutine (c : CPU) : Option CPU :=
  if h : c.sp < 16 then
    if c.sp = 0 then none
    else some { c with pc := c.stack ⟨c.sp, h⟩, sp := c.sp - 1 }
  else none

/-- CPU::jump_addr (src/chip9/cpu.rs lines 139-141). -/
def CPU.jump_addr (c : CPU) (a : Nat) : CPU := { c with pc := a % 4096 }

/-- CPU::call_addr (src/chip9/cpu.rs lines 143-147): sp is incremented
first, then the pre-fetch-advanced program counter is stored at
stack[sp].  When the incremented sp leaves the 16-slot stack the index
is out of bounds, a panic (none). -/
def CPU.call_addr (c : CPU) (a : Nat) : Option CPU :=
  if h : c.sp + 1 < 16 then
    some { c with
             sp := c.sp + 1,
             stack := Function.update c.stack ⟨c.sp + 1, h⟩ c.pc,
             pc := a % 4096 }
  else none

/-- CPU::skip_eq_byte (src/chip9/cpu.rs lines 149-153). -/
def CPU.skip_eq_byte (c : CPU) (vx : Fin 16) (b : Nat) : CPU :=
  if c.regs vx = b then { c with pc := (c.pc + 2) % 4096 } else c

/-- CPU::skip_neq_byte (src/chip9/cpu.rs lines 155-159). -/
def CPU.skip_neq_byte (c : CPU) (vx : Fin 16) (b : Nat) : CPU :=
  if c.regs vx ≠ b then { c with pc := (c.pc + 2) % 4096 } else c

/-- CPU::skip_eq_reg (src/chip9/cpu.rs lines 161-165). -/
def CPU.skip_eq_reg (c : CPU) (vx vy : Fin 16) : CPU :=
  if c.regs vx = c.regs vy then { c with pc := (c.pc + 2) % 4096 } else c

/-- CPU::skip_neq_reg (src/chip9/cpu.rs lines 221-225). -/
def CPU.skip_neq_reg (c : CPU) (vx vy : Fin 16) : CPU :=
  if c.regs vx ≠ c.regs vy then { c with pc := (c.pc + 2) % 4096 } else c

/-- CPU::load_byte (src/chip9/cpu.rs lines 167-169). -/
def CPU.load_byte (c : CPU) (vx : Fin 16) (b : Nat) : CPU :=
  { c with regs := Function.update c.regs vx b }

/-- CPU::add_byte (src/chip9/cpu.rs lines 171-173): wrapping add of an
immediate byte, no flag update. -/
def CPU.add_byte (c : CPU) (vx : Fin 16) (b : Nat) : CPU :=
  { c with regs := Function.update c.regs vx ((c.regs vx + b) % 256) }

/-- CPU::load_reg (src/chip9/cpu.rs lines 175-177). -/
def CPU.load_reg (c : CPU) (vx vy : Fin 16) : CPU :=
  { c with regs := Function.update c.regs vx (c.regs vy) }

/-- CPU::or_reg (src/chip9/cpu.rs lines 179-181). -/
def CPU.or_reg (c : CPU) (vx vy : Fin 16) : CPU :=
  { c with regs := Function.update c.regs vx (c.regs vx ||| c.regs vy) }

/-- CPU::and_reg (src/chip9/cpu.rs lines 183-185). -/
def CPU.and_reg (c : CPU) (vx vy : Fin 16) : CPU :=
  { c with regs := Function.update c.regs vx (c.regs vx &&& c.regs vy) }

/-- CPU::xor_reg (src/chip9/cpu.rs lines 187-189). -/
def CPU.xor_reg (c : CPU) (vx vy : Fin 16) : CPU :=
  { c with regs := Function.update c.regs vx (c.regs vx ^^^ c.regs vy) }

/-- CPU::load_idx (src/chip9/cpu.rs lines 227-229). -/
def CPU.load_idx (c : CPU) (a : Nat) : CPU := { c with idx := a % 4096 }

/-- CPU::jump_v0 (src/chip9/cpu.rs lines 231-233): 12-bit wrapping add of
V0 to the address operand. -/
def CPU.jump_v0 (c : CPU) (a : Nat) : CPU :=
  { c with pc := (a + c.regs.v0) % 4096 }

/-- CPU::random_byte (src/chip9/cpu.rs lines 235-238); the random u8 of
rand::random is passed in as an explicit oracle. -/
def CPU.random_byte (c : CPU) (vx : Fin 16) (b rnd : Nat) : CPU :=
  { c with regs := Function.update c.regs vx (b &&& rnd % 256) }

/-- CPU::draw (src/chip9/cpu.rs lines 240-251): read the height-byte
sprite at the index register, draw it at (Vx, Vy) and store the
collision flag. -/
def CPU.draw (c : CPU) (vx vy n : Fin 16) (g : Grid) : CPU × Grid :=
  let sprite := (List.range n.val).map (fun o => c.mem.read_byte (c.idx + o))
  let res := Display.draw g (c.regs vx) (c.regs vy) sprite
  ({ c with regs := c.regs.set_flag (if res.2 then 1 else 0) }, res.1)

/-- CPU::skip_key_pressed (src/chip9/cpu.rs lines 254-258). -/
def CPU.skip_key_pressed (c : CPU) (vx : Fin 16) (kb : Keyboard) : CPU :=
  if kb.is_key_pressed (c.regs vx) then { c with pc := (c.pc + 2) % 4096 } else c

/-- CPU::skip_key_not_pressed (src/chip9/cpu.rs lines 260-264). -/
def CPU.skip_key_not_pressed (c : CPU) (vx : Fin 16) (kb : Keyboard) : CPU :=
  if kb.is_key_pressed (c.regs vx) then c else { c with pc := (c.pc + 2) % 4096 }

/-- CPU::load_delay (src/chip9/cpu.rs lines 266-268). -/
def CPU.load_delay (c : CPU) (vx : Fin 16) : CPU :=
  { c with regs := Function.update c.regs vx (Timer.get c.dt) }

/-- CPU::wait_key (src/chip9/cpu.rs lines 270-276): if a key is pressed
store its value in Vx, otherwise rewind the program counter by 2 (12-bit
wrapping) so the same instruction is fetched again.  A single total
function: no internal loop or sleep. -/
def CPU.wait_key (c : CPU) (vx : Fin 16) (kb : Keyboard) : CPU :=
  match kb.get_key_press with
  | some k => { c with regs := Function.update c.regs vx k.val }
  | none => { c with pc := (c.pc + 4096 - 2) % 4096 }

/-- CPU::set_delay (src/chip9/cpu.rs lines 278-280). -/
def CPU.set_delay (c : CPU) (vx : Fin 16) : CPU :=
  { c with dt := Timer.load (c.regs vx) }

/-- CPU::set_sound (src/chip9/cpu.rs lines 282-284). -/
def CPU.set_sound (c : CPU) (vx : Fin 16) : CPU :=
  { c with st := Timer.load (c.regs vx) }

/-- CPU::add_idx (src/chip9/cpu.rs lines 286-288): 12-bit wrapping add of
Vx into the index register. -/
def CPU.add_idx (c : CPU) (vx : Fin 16) : CPU :=
  { c with idx := (c.idx + c.regs vx) % 4096 }

/-- CPU::load_sprite (src/chip9/cpu.rs lines 290-292): font sprite
offset 5 * Vx. -/
def CPU.load_sprite (c : CPU) (vx : Fin 16) : CPU :=
  { c with idx := 5 * c.regs vx % 4096 }

/-- CPU::load_bcd (src/chip9/cpu.rs lines 294-298). -/
def CPU.load_bcd (c : CPU) (vx : Fin 16) : CPU :=
  { c with mem :=
      ((c.mem.write_byte c.idx (c.regs vx / 100)).write_byte (c.idx + 1)
        (c.regs vx % 100 / 10)).write_byte (c.idx + 2) (c.regs vx % 10) }

/-- Write the n cells base, base+1, ..., base+n-1 (12-bit wrapped) with
the values of f; the loop shape shared by store_regs and program
loading. -/
def writeRange (m : Mem) (base : Nat) (f : Nat → Nat) (n : Nat) : Mem :=
  (List.range n).foldl (fun mm i => mm.write_byte (base + i) (f i)) m

/-- CPU::store_regs (src/chip9/cpu.rs lines 300-306): copy V0..=Vx to
memory at idx, idx+1, ..., idx+x, then advance the index register by
x + 1. -/
def CPU.store_regs (c : CPU) (vx : Fin 16) : CPU :=
  { c with
    mem := writeRange c.mem c.idx
      (fun i => c.regs ⟨i % 16, Nat.mod_lt _ (by norm_num)⟩) (vx.val + 1),
    idx := (c.idx + vx.val + 1) % 4096 }

/-- The register-update loop of CPU::load_regs: register i receives the
memory cell idx + i, for i below n. -/
def loadRegsFold (mem : Mem) (idx : Nat) (r : Regs) (n : Nat) : Regs :=
  (List.range n).foldl
    (fun r i => Function.update r ⟨i % 16, Nat.mod_lt _ (by norm_num)⟩
      (mem.read_byte (idx + i))) r

/-- CPU::load_regs (src/chip9/cpu.rs lines 308-314): copy memory at idx,
idx+1, ..., idx+x into V0..=Vx, then advance the index register by
x + 1. -/
def CPU.load_regs (c : CPU) (vx : Fin 16) : CPU :=
  { c with
    regs := loadRegsFold c.mem c.idx c.regs (vx.val + 1),
    idx := (c.idx + vx.val + 1) % 4096 }

/-- CPU::execute (src/chip9/cpu.rs lines 82-124) together with CPU::fetch
(lines 75-80): advance the program counter past the fetched word, decode
it, propagate a decode failure as an error, otherwise dispatch exactly
one instruction.  The keyboard state and the random u8 drawn inside
random_byte are explicit arguments; a Rust panic is none. -/
def CPU.executeStep (c0 : CPU) (g : Grid) (kb : Keyboard) (rnd : Nat) :
    Option (Except Chip9Error (CPU × Grid)) :=
  let w := c0.mem.get_instruction c0.pc
  let c := { c0 with pc := (c0.pc + 2) % 4096 }
  match OpCode.decode w with
  | .error e => some (.error e)
  | .ok op =>
    match op with
    | .NoOp => some (.ok (c, g))
    | .ClearScreen => some (.ok (c, fun _ _ => false))
    | .Return => (c.return_subroutine).map (fun c2 => .ok (c2, g))
    | .Jump a => some (.ok (c.jump_addr a, g))
    | .Call a => (c.call_addr a).map (fun c2 => .ok (c2, g))
    | .SkipEqualByte x b => some (.ok (c.skip_eq_byte x b, g))
    | .SkipNotEqualByte x b => some (.ok (c.skip_neq_byte x b, g))
    | .SkipEqualReg x y => some (.ok (c.skip_eq_reg x y, g))
    | .LoadByte x b => some (.ok (c.load_byte x b, g))
    | .AddByte x b => some (.ok (c.add_byte x b, g))
    | .LoadReg x y => some (.ok (c.load_reg x y, g))
    | .OrReg x y => some (.ok (c.or_reg x y, g))
    | .AndReg x y => some (.ok (c.and_reg x y, g))
    | .XorReg x y => some (.ok (c.xor_reg x y, g))
    | .AddReg x y => some (.ok (c.add_reg x y, g))
    | .SubReg x y => some (.ok (c.sub_reg x y, g))
    | .ShiftRight x _ => some (.ok (c.shr_reg x, g))
    | .SubNot x y => some (.ok (c.subn_reg x y, g))
    | .ShiftLeft x _ => some (.ok (c.shl_reg x, g))
    | .SkipNotEqualReg x y => some (.ok (c.skip_neq_reg x y, g))
    | .LoadIndex a => some (.ok (c.load_idx a, g))
    | .JumpV0 a => some (.ok (c.jump_v0 a, g))
    | .RandomByte x b => some (.ok (c.random_byte x b rnd, g))
    | .Draw x y n =>
      let r := c.draw x y n g
      some (.ok (r.1, r.2))
    | .SkipKeyPressed x => some (.ok (c.skip_key_pressed x kb, g))
    | .SkipKeyNotPressed x => some (.ok (c.skip_key_not_pressed x kb, g))
    | .LoadDelay x => some (.ok (c.load_delay x, g))
    | .WaitKey x => some (.ok (c.wait_key x kb, g))
    | .SetDelay x => some (.ok (c.set_delay x, g))
    | .SetSound x => some (.ok (c.set_sound x, g))
    | .AddToIndex x => some (.ok (c.add_idx x, g))
    | .LoadFont x => some (.ok (c.load_sprite x, g))
    | .LoadBCD x => some (.ok (c.load_bcd x, g))
    | .StoreRegs x => some (.ok (c.store_regs x, g))
    | .LoadRegs x => some (.ok (c.load_regs x, g))

/-- Modelled from the spec: Memory::load_from_file as used by
CPU::load_program (src/chip9/cpu.rs lines 67-69; memory.rs is not in the
source tree).  The program bytes are written verbatim starting at 0x200;
a program longer than the 4096 - 0x200 available cells is rejected at
load time with the TooManyLines condition of src/errors.rs. -/
def Mem.load_program (m : Mem) (program : List Nat) : Except Chip9Error Mem :=
  if program.length ≤ 4096 - 0x200 then
    .ok (writeRange m 0x200 (fun i => program.getD i 0 % 256) program.length)
  else
    .error (.TooManyLines program.length (4096 - 0x200))

/-- Keyboard state with no key pressed. -/
def kbNone : Keyboard := fun _ => false

/-- Keyboard state with exactly key 5 pressed. -/
def kbFive : Keyboard := Function.update (fun _ => false) 5 true

/-- Empty display grid. -/
def gridEmpty : Grid := fun _ _ => false

/-- CPU whose next instruction is 0xF30A, wait-for-key into V3. -/
def cpuWait : CPU :=
  { CPU.new with mem := (CPU.new.mem.write_byte 0x200 0xF3).write_byte 0x201 0x0A }

/-- CPU whose next instruction word is 0x00FF, matching no pattern. -/
def cpuBad : CPU :=
  { CPU.new with mem := (CPU.new.mem.write_byte 0x200 0x00).write_byte 0x201 0xFF }

/-- CPU with a full call stack (sp = 15). -/
def cpuFullStack : CPU := { CPU.new with sp := 15 }

/-- CPU with distinctive register values and idx = 0x300, for exercising
the register-range store/load round trip. -/
def cpuStore : CPU := { cpuSub with idx := 0x300 }

/-- A two-byte program image. -/
def progSmall : List Nat := [0x12, 0x34]

/-- Helper: flip the polarity of the not-borrow flag conditional. -/
theorem ite_borrow_flip (a b : Nat) :
    (if a < b then (0 : Nat) else 1) = if b ≤ a then 1 else 0 := by
  split <;> split <;> omega

/-- Claim C5, counterexample: with V15 = 0xFF and V1 = 0x01, adding V1
into V15 has a true sum above 255, yet after add_reg the flag register
V15 is not 1 (the wrapped sum overwrote the carry), so the claim fails
at register index x = 15. -/
theorem add_reg_flag_overwritten_cex :
    256 ≤ cpuAdd.regs 15 + cpuAdd.regs 1 ∧ (cpuAdd.add_reg 15 1).regs 15 ≠ 1 := by
  decide

/-- Claim C5 (amended): register-add writes the wrapping sum into Vx; the
flag register receives the carry of the true sum whenever x is not the
flag register itself (for x = 15 the sum overwrites the just-written
carry); all other registers are untouched. -/
theorem add_reg_carry (c : CPU) (vx vy : Fin 16)
    (hx : c.regs vx < 256) (hy : c.regs vy < 256) :
    (c.add_reg vx vy).regs vx = (c.regs vx + c.regs vy) % 256
    ∧ (vx ≠ 15 → (c.add_reg vx vy).regs 15 =
        if 256 ≤ c.regs vx + c.regs vy then 1 else 0)
    ∧ (∀ z : Fin 16, z ≠ vx → z ≠ 15 → (c.add_reg vx vy).regs z = c.regs z) :=
  by
  refine ⟨?_, fun h => ?_, fun z hzx hz15 => ?_⟩
  · simp [CPU.add_reg]
  · simp [CPU.add_reg, Regs.set_flag, Function.update_noteq (Ne.symm h)]
  · simp [CPU.add_reg, Regs.set_flag,
      Function.update_noteq hzx, Function.update_noteq hz15]

/-- Witness for add_reg_carry: the spec example V0 = 0xFF, V1 = 0x01 with
x = 0, y = 1. -/
theorem add_reg_carry_witness :
    (cpuAdd.add_reg 0 1).regs 0 = (cpuAdd.regs 0 + cpuAdd.regs 1) % 256
    ∧ ((0 : Fin 16) ≠ 15 → (cpuAdd.add_reg 0 1).regs 15 =
        if 256 ≤ cpuAdd.regs 0 + cpuAdd.regs 1 then 1 else 0)
    ∧ (∀ z : Fin 16, z ≠ 0 → z ≠ 15 → (cpuAdd.add_reg 0 1).regs z = cpuAdd.regs z) :=
  add_reg_carry cpuAdd 0 1 (by decide) (by decide)

/-- Claim C6, counterexample: with V15 = 0x05 and V1 = 0x0A, subtracting
V1 from V15 borrows, so the claim wants the flag register to end at 0;
after sub_reg V15 holds the wrapped difference 0xFB instead, so the
claim fails at register index x = 15. -/
theorem sub_reg_flag_overwritten_cex :
    cpuSub.regs 15 < cpuSub.regs 1 ∧ (cpuSub.sub_reg 15 1).regs 15 ≠ 0 := by
  decide

/-- Claim C6 (amended): plain subtract puts the wrapped difference
Vx - Vy into Vx and subtract-not-borrow the reversed difference Vy - Vx;
the flag register receives the not-borrow bit whenever x is not the flag
register itself (for x = 15 the difference overwrites the just-written
flag). -/
theorem sub_subn_flag (c : CPU) (vx vy : Fin 16)
    (hx : c.regs vx < 256) (hy : c.regs vy < 256) :
    (c.sub_reg vx vy).regs vx = (c.regs vx + 256 - c.regs vy) % 256
    ∧ (vx ≠ 15 → (c.sub_reg vx vy).regs 15 =
        if c.regs vy ≤ c.regs vx then 1 else 0)
    ∧ (c.subn_reg vx vy).regs vx = (c.regs vy + 256 - c.regs vx) % 256
    ∧ (vx ≠ 15 → (c.subn_reg vx vy).regs 15 =
        if c.regs vx ≤ c.regs vy then 1 else 0) :=
  by
  refine ⟨?_, fun h => ?_, ?_, fun h => ?_⟩
  · simp [CPU.sub_reg]
  · simp [CPU.sub_reg, Regs.set_flag, Function.update_noteq (Ne.symm h),
      ite_borrow_flip]
  · simp [CPU.subn_reg]
  · simp [CPU.subn_reg, Regs.set_flag, Function.update_noteq (Ne.symm h),
      ite_borrow_flip]

/-- Witness for sub_subn_flag: the spec example Vx = 0x05, Vy = 0x0A at
x = 0, y = 1. -/
theorem sub_subn_flag_witness :
    (cpuSub.sub_reg 0 1).regs 0 = (cpuSub.regs 0 + 256 - cpuSub.regs 1) % 256
    ∧ ((0 : Fin 16) ≠ 15 → (cpuSub.sub_reg 0 1).regs 15 =
        if cpuSub.regs 1 ≤ cpuSub.regs 0 then 1 else 0)
    ∧ (cpuSub.subn_reg 0 1).regs 0 = (cpuSub.regs 1 + 256 - cpuSub.regs 0) % 256
    ∧ ((0 : Fin 16) ≠ 15 → (cpuSub.subn_reg 0 1).regs 15 =
        if cpuSub.regs 0 ≤ cpuSub.regs 1 then 1 else 0) :=
  sub_subn_flag cpuSub 0 1 (by decide) (by decide)

/-- Claim C4, counterexample: with V15 = 0x01, shift-right of register 15
must, per the claim, leave the flag register holding the shifted-out low
bit 1; the code shifts the register after writing the flag into the same
cell, so V15 ends at 0 and the claim fails at x = 15. -/
theorem shift_flag_overwritten_cex :
    cpuShift.regs 15 % 2 = 1 ∧ (cpuShift.shr_reg 15).regs 15 ≠ 1 := by
  decide

/-- Claim C4 (amended): for every register index x other than the flag
register, shift-right stores the old low bit of Vx in the flag register
and halves Vx, and shift-left stores the old high bit and doubles Vx
mod 256; for x = 15 the flag write happens first and the shift is then
applied to the written flag value, so V15 ends at 0 after shift-right
and at twice its old high bit after shift-left. -/
theorem shift_flag_order (c : CPU) (vx : Fin 16) (hx : c.regs vx < 256) :
    (vx ≠ 15 →
      (c.shr_reg vx).regs 15 = c.regs vx % 2
      ∧ (c.shr_reg vx).regs vx = c.regs vx / 2
      ∧ (c.shl_reg vx).regs 15 = c.regs vx / 128
      ∧ (c.shl_reg vx).regs vx = c.regs vx * 2 % 256)
    ∧ (c.shr_reg 15).regs 15 = 0
    ∧ (c.shl_reg 15).regs 15 = c.regs 15 / 128 * 2 % 256 :=
  by
  refine ⟨fun h => ⟨?_, ?_, ?_, ?_⟩, ?_, ?_⟩
  · simp [CPU.shr_reg, Regs.set_flag, Function.update_noteq (Ne.symm h)]
  · simp [CPU.shr_reg, Regs.set_flag, Function.update_noteq h]
  · simp [CPU.shl_reg, Regs.set_flag, Function.update_noteq (Ne.symm h)]
  · simp [CPU.shl_reg, Regs.set_flag, Function.update_noteq h]
  · simp [CPU.shr_reg, Regs.set_flag]
  · simp [CPU.shl_reg, Regs.set_flag]

/-- Witness for shift_flag_order at x = 0 with V0 = 0x05. -/
theorem shift_flag_order_witness :
    ((0 : Fin 16) ≠ 15 →
      (cpuShift.shr_reg 0).regs 15 = cpuShift.regs 0 % 2
      ∧ (cpuShift.shr_reg 0).regs 0 = cpuShift.regs 0 / 2
      ∧ (cpuShift.shl_reg 0).regs 15 = cpuShift.regs 0 / 128
      ∧ (cpuShift.shl_reg 0).regs 0 = cpuShift.regs 0 * 2 % 256)
    ∧ (cpuShift.shr_reg 15).regs 15 = 0
    ∧ (cpuShift.shl_reg 15).regs 15 = cpuShift.regs 15 / 128 * 2 % 256 :=
  shift_flag_order cpuShift 0 (by decide)

/-- Claim C7: Timer::tick decrements a positive counter by one and leaves
zero unchanged, so the value never leaves [0, 255]; ten ticks after
load 10 reach 0 and an eleventh leaves 0; get reads back the current
value; load always lands inside [0, 255]. -/
theorem timer_tick_spec (v : Nat) (hv : v ≤ 255) :
    (0 < v → Timer.tick v = v - 1)
    ∧ Timer.tick 0 = 0
    ∧ Timer.tick v ≤ 255
    ∧ Timer.get (Timer.tick v) = Timer.tick v
    ∧ (∀ w : Nat, Timer.get (Timer.load w) = Timer.load w ∧ Timer.load w ≤ 255)
    ∧ Timer.tick^[10] (Timer.load 10) = 0
    ∧ Timer.tick^[11] (Timer.load 10) = 0 :=
  by
  refine ⟨fun h => ?_, by decide, ?_, rfl, fun w => ⟨rfl, ?_⟩, by decide, by decide⟩
  · simp [Timer.tick, h]
  · simp only [Timer.tick]
    split <;> omega
  · exact Nat.le_of_lt_succ (Nat.mod_lt _ (by norm_num))

/-- Witness for timer_tick_spec at v = 10. -/
theorem timer_tick_spec_witness :
    (0 < 10 → Timer.tick 10 = 10 - 1)
    ∧ Timer.tick 0 = 0
    ∧ Timer.tick 10 ≤ 255
    ∧ Timer.get (Timer.tick 10) = Timer.tick 10
    ∧ (∀ w : Nat, Timer.get (Timer.load w) = Timer.load w ∧ Timer.load w ≤ 255)
    ∧ Timer.tick^[10] (Timer.load 10) = 0
    ∧ Timer.tick^[11] (Timer.load 10) = 0 :=
  timer_tick_spec 10 (by decide)

/-- Reading back the cell just written. -/
theorem read_write_same (m : Mem) (a v : Nat) : (m.write_byte a v).read_byte a = v := by
  simp [Mem.read_byte, Mem.write_byte]

/-- A write leaves every cell with a different 12-bit address unchanged. -/
theorem read_write_other (m : Mem) (a b v : Nat) (h : a % 4096 ≠ b % 4096) :
    (m.write_byte a v).read_byte b = m.read_byte b := by
  unfold Mem.read_byte Mem.write_byte
  rw [Function.update_noteq]
  simp only [ne_eq, Fin.mk.injEq]
  omega

/-- Offsets below 4096 from a common base stay distinct after the 12-bit
wrap. -/
theorem mod_shift_inj (base i j : Nat) (hi : i < 4096) (hj : j < 4096)
    (h : (base + i) % 4096 = (base + j) % 4096) : i = j := by
  have h2 : i % 4096 = j % 4096 := Nat.ModEq.add_left_cancel (Nat.ModEq.refl base) h
  rwa [Nat.mod_eq_of_lt hi, Nat.mod_eq_of_lt hj] at h2

/-- Peel the last write off a writeRange loop. -/
theorem writeRange_succ (m : Mem) (base : Nat) (f : Nat → Nat) (n : Nat) :
    writeRange m base f (n + 1) = (writeRange m base f n).write_byte (base + n) (f n) := by
  unfold writeRange
  rw [List.range_succ, List.foldl_append]
  simp

/-- Reading inside a block of at most 4096 written cells returns the
written value. -/
theorem writeRange_read_hit (m : Mem) (base : Nat) (f : Nat → Nat) (n j : Nat)
    (hn : n ≤ 4096) (hj : j < n) :
    (writeRange m base f n).read_byte (base + j) = f j := by
  induction n with
  | zero => omega
  | succ k ih =>
    rw [writeRange_succ]
    by_cases hjk : j = k
    · subst hjk; exact read_write_same _ _ _
    · rw [read_write_other]
      · exact ih (by omega) (by omega)
      · intro hh
        exact hjk (mod_shift_inj base j k (by omega) (by omega) hh.symm)

/-- Peel the last update off a loadRegsFold loop. -/
theorem loadRegsFold_succ (mem : Mem) (idx : Nat) (r : Regs) (n : Nat) :
    loadRegsFold mem idx r (n + 1)
      = Function.update (loadRegsFold mem idx r n)
          ⟨n % 16, Nat.mod_lt _ (by norm_num)⟩ (mem.read_byte (idx + n)) := by
  unfold loadRegsFold
  rw [List.range_succ, List.foldl_append]
  simp

/-- The register file produced by the load_regs loop: registers below n
hold the corresponding memory cells, the rest are untouched. -/
theorem loadRegsFold_get (mem : Mem) (idx : Nat) (r : Regs) (n : Nat)
    (hn : n ≤ 16) (z : Fin 16) :
    loadRegsFold mem idx r n z
      = if z.val < n then mem.read_byte (idx + z.val) else r z := by
  induction n with
  | zero => simp [loadRegsFold]
  | succ k ih =>
    rw [loadRegsFold_succ]
    by_cases hzk : z.val = k
    · have hz : z = ⟨k % 16, Nat.mod_lt _ (by norm_num)⟩ := by
        apply Fin.ext
        simp [Nat.mod_eq_of_lt (show k < 16 by omega), hzk]
      rw [hz, Function.update_same]
      simp [Nat.mod_eq_of_lt (show k < 16 by omega)]
    · rw [Function.update_noteq]
      · rw [ih (by omega)]
        by_cases hlt : z.val < k
        · simp [hlt, show z.val < k + 1 by omega]
        · simp [hlt, show ¬ z.val < k + 1 by omega]
      · intro hh
        apply hzk
        have := congrArg Fin.val hh
        simpa [Nat.mod_eq_of_lt (show k < 16 by omega)] using this

/-- Claim C3: register-range store writes V0..=Vx to the cells idx,
idx+1, ..., idx+x and advances the index register by x + 1 (12-bit
wrapping); load reads those cells back into V0..=Vx with the same index
advance; store at idx followed by load with the index reset to idx
restores V0..=Vx exactly. -/
theorem store_load_regs_roundtrip (c : CPU) (vx : Fin 16) :
    (∀ i : Fin 16, i.val ≤ vx.val →
        (c.store_regs vx).mem.read_byte (c.idx + i.val) = c.regs i)
    ∧ (c.store_regs vx).idx = (c.idx + vx.val + 1) % 4096
    ∧ (∀ i : Fin 16, i.val ≤ vx.val →
        (c.load_regs vx).regs i = c.mem.read_byte (c.idx + i.val))
    ∧ (c.load_regs vx).idx = (c.idx + vx.val + 1) % 4096
    ∧ (∀ i : Fin 16, i.val ≤ vx.val →
        ({ c.store_regs vx with idx := c.idx }.load_regs vx).regs i = c.regs i) :=
  by
  have hstore : ∀ i : Fin 16, i.val ≤ vx.val →
      (c.store_regs vx).mem.read_byte (c.idx + i.val) = c.regs i := by
    intro i hi
    show (writeRange c.mem c.idx
      (fun j => c.regs ⟨j % 16, Nat.mod_lt _ (by norm_num)⟩)
      (vx.val + 1)).read_byte (c.idx + i.val) = c.regs i
    rw [writeRange_read_hit c.mem c.idx _ (vx.val + 1) i.val (by omega) (by omega)]
    congr 1
    apply Fin.ext
    simp [Nat.mod_eq_of_lt i.isLt]
  have hload : ∀ (c2 : CPU) (i : Fin 16), i.val ≤ vx.val →
      (c2.load_regs vx).regs i = c2.mem.read_byte (c2.idx + i.val) := by
    intro c2 i hi
    show loadRegsFold c2.mem c2.idx c2.regs (vx.val + 1) i = _
    rw [loadRegsFold_get c2.mem c2.idx c2.regs (vx.val + 1) (by omega) i]
    simp [show i.val < vx.val + 1 by omega]
  refine ⟨hstore, rfl, hload c, rfl, ?_⟩
  intro i hi
  rw [hload { c.store_regs vx with idx := c.idx } i hi]
  exact hstore i hi

/-- Witness for store_load_regs_roundtrip at x = 1 on a state with
V0 = 0x05, V1 = 0x0A and idx = 0x300. -/
theorem store_load_regs_roundtrip_witness :
    (∀ i : Fin 16, i.val ≤ (1 : Fin 16).val →
        (cpuStore.store_regs 1).mem.read_byte (cpuStore.idx + i.val) = cpuStore.regs i)
    ∧ (cpuStore.store_regs 1).idx = (cpuStore.idx + (1 : Fin 16).val + 1) % 4096
    ∧ (∀ i : Fin 16, i.val ≤ (1 : Fin 16).val →
        (cpuStore.load_regs 1).regs i = cpuStore.mem.read_byte (cpuStore.idx + i.val))
    ∧ (cpuStore.load_regs 1).idx = (cpuStore.idx + (1 : Fin 16).val + 1) % 4096
    ∧ (∀ i : Fin 16, i.val ≤ (1 : Fin 16).val →
        ({ cpuStore.store_regs 1 with idx := cpuStore.idx }.load_regs 1).regs i
          = cpuStore.regs i) :=
  store_load_regs_roundtrip cpuStore 1

/-- Claim C9: loading a program writes its bytes verbatim from 0x200 and
succeeds exactly when the image fits into the 4096 - 0x200 = 3584
available cells; a longer image is rejected at load time with the
TooManyLines condition carrying the length and the capacity. -/
theorem load_program_size (m : Mem) (program : List Nat)
    (hb : ∀ b ∈ program, b < 256) :
    (program.length ≤ 3584 →
      ∃ m2, m.load_program program = .ok m2
        ∧ ∀ i, i < program.length → m2.read_byte (0x200 + i) = program.getD i 0)
    ∧ (3584 < program.length →
      m.load_program program = .error (.TooManyLines program.length 3584)) :=
  by
  constructor
  · intro hlen
    refine ⟨writeRange m 0x200 (fun i => program.getD i 0 % 256) program.length,
      ?_, ?_⟩
    · unfold Mem.load_program
      rw [if_pos (by omega)]
    · intro i hi
      rw [writeRange_read_hit m 0x200 _ program.length i (by omega) hi]
      have hmem : program.getD i 0 ∈ program := by
        rw [List.getD_eq_getElem program 0 hi]
        exact List.getElem_mem hi
      exact Nat.mod_eq_of_lt (hb _ hmem)
  · intro hlen
    unfold Mem.load_program
    rw [if_neg (by omega)]

/-- Witness for load_program_size: the two-byte program [0x12, 0x34]. -/
theorem load_program_size_witness :
    (progSmall.length ≤ 3584 →
      ∃ m2, Mem.load_program (fun _ => 0) progSmall = .ok m2
        ∧ ∀ i, i < progSmall.length → m2.read_byte (0x200 + i) = progSmall.getD i 0)
    ∧ (3584 < progSmall.length →
      Mem.load_program (fun _ => 0) progSmall
        = .error (.TooManyLines progSmall.length 3584)) :=
  load_program_size (fun _ => 0) progSmall (by decide)

/-- Claim C10: call increments the stack pointer before storing the
return address, so a successful call writes slot sp + 1 (never slot 0)
and leaves every other slot alone; a call with sp at or above 15 indexes
past the 16-slot stack, a hard failure; a return with sp = 0 underflows
the u8 stack pointer, likewise a hard failure. -/
theorem call_return_stack_safety (c : CPU) (a : Nat) :
    (∀ hok : c.sp + 1 < 16,
      ∃ c2, c.call_addr a = some c2
        ∧ c2.sp = c.sp + 1
        ∧ c2.stack ⟨c.sp + 1, hok⟩ = c.pc
        ∧ (∀ z : Fin 16, z.val ≠ c.sp + 1 → c2.stack z = c.stack z)
        ∧ c2.stack 0 = c.stack 0
        ∧ c2.pc = a % 4096)
    ∧ (15 ≤ c.sp → c.call_addr a = none)
    ∧ (c.sp = 0 → c.return_subroutine = none) :=
  by
  refine ⟨fun hok => ?_, fun h15 => ?_, fun h0 => ?_⟩
  · have he : c.call_addr a = some { c with
        sp := c.sp + 1,
        stack := Function.update c.stack ⟨c.sp + 1, hok⟩ c.pc,
        pc := a % 4096 } := by
      unfold CPU.call_addr
      rw [dif_pos hok]
    refine ⟨_, he, rfl, Function.update_same _ _ _, ?_, ?_, rfl⟩
    · intro z hz
      show Function.update c.stack ⟨c.sp + 1, hok⟩ c.pc z = c.stack z
      rw [Function.update_noteq]
      intro hh
      exact hz (congrArg Fin.val hh)
    · show Function.update c.stack ⟨c.sp + 1, hok⟩ c.pc 0 = c.stack 0
      rw [Function.update_noteq]
      intro hh
      have h2 := congrArg Fin.val hh
      simp only [Fin.val_zero] at h2
      omega
  · unfold CPU.call_addr
    rw [dif_neg (by omega)]
  · unfold CPU.return_subroutine
    rw [dif_pos (by omega), if_pos h0]

/-- Witness for call_return_stack_safety: a call on a full stack
(sp = 15) and a return on an empty stack both fail hard; a call on the
fresh CPU succeeds into slot 1. -/
theorem call_return_stack_safety_witness :
    cpuFullStack.call_addr 0x400 = none
    ∧ CPU.new.return_subroutine = none
    ∧ ∃ c2, CPU.new.call_addr 0x400 = some c2
        ∧ c2.sp = CPU.new.sp + 1
        ∧ c2.stack 0 = CPU.new.stack 0
        ∧ c2.pc = 0x400 % 4096 :=
  ⟨(call_return_stack_safety cpuFullStack 0x400).2.1 (by decide),
   (call_return_stack_safety CPU.new 0x400).2.2 (by decide),
   by
     obtain ⟨c2, he, hsp, _, _, hz, hpc⟩ :=
       (call_return_stack_safety CPU.new 0x400).1 (by decide)
     exact ⟨c2, he, hsp, hz, hpc⟩⟩

/-- find? returns the element at the first index whose predicate
holds when all earlier indices fail it. -/
theorem find?_first {α} (p : α → Bool) (l : List α) :
    ∀ (i : Nat) (hi : i < l.length), p (l.get ⟨i, hi⟩) = true →
      (∀ j (hj : j < l.length), j < i → p (l.get ⟨j, hj⟩) = false) →
      l.find? p = some (l.get ⟨i, hi⟩) := by
  induction l with
  | nil => intro i hi; simp at hi
  | cons a t ih =>
    intro i hi hp hmin
    cases i with
    | zero => exact List.find?_cons_of_pos _ hp
    | succ n =>
      have ha : p a = false := hmin 0 (by simp) (by omega)
      rw [List.find?_cons_of_neg _ (by simp [ha])]
      exact ih n (by simpa using hi) hp
        (fun j hj hji => hmin (j + 1) (by simpa using hj) (by omega))

/-- With no key pressed, get_key_press returns none. -/
theorem get_key_press_none (kb : Keyboard) (h : ∀ k, kb k = false) :
    kb.get_key_press = none := by
  unfold Keyboard.get_key_press
  rw [List.find?_eq_none]
  intro x _
  simp [h x]

/-- With k pressed and every smaller key released, get_key_press returns
k (the source scans the pressed array from index 0). -/
theorem get_key_press_first (kb : Keyboard) (k : Fin 16)
    (hk : kb k = true) (hmin : ∀ j, j < k → kb j = false) :
    kb.get_key_press = some k := by
  unfold Keyboard.get_key_press
  have hlen : k.val < (List.finRange 16).length := by simp [k.isLt]
  have hf := find?_first (fun j => kb j) (List.finRange 16) k.val hlen
    (by rw [List.get_finRange]; simpa using hk)
    (fun j hj hji => by
      rw [List.get_finRange]
      exact hmin ⟨j, by simpa using hj⟩ (by simpa using hji))
  rw [hf, List.get_finRange]

/-- Claim C1: executing a wait-for-key instruction through one execute
call with no key pressed returns the state completely unchanged (the
fetch advance of the program counter is undone by the rewind), without
any internal loop; with a key pressed, Vx receives the first pressed
key and the program counter moves 2 past the instruction. -/
theorem wait_key_retry (c : CPU) (g : Grid) (kb : Keyboard) (rnd : Nat) (x : Fin 16)
    (hpc : c.pc < 4096)
    (hw : OpCode.decode (c.mem.get_instruction c.pc) = .ok (.WaitKey x)) :
    ((∀ k : Fin 16, kb k = false) → c.executeStep g kb rnd = some (.ok (c, g)))
    ∧ (∀ k : Fin 16, kb k = true → (∀ j : Fin 16, j < k → kb j = false) →
        c.executeStep g kb rnd
          = some (.ok ({ c with
              pc := (c.pc + 2) % 4096,
              regs := Function.update c.regs x k.val }, g))) :=
  by
  refine ⟨fun hnone => ?_, fun k hk hmin => ?_⟩
  · simp only [CPU.executeStep, hw]
    simp only [CPU.wait_key, get_key_press_none kb hnone]
    have hpc2 : ((c.pc + 2) % 4096 + 4096 - 2) % 4096 = c.pc := by omega
    rw [hpc2]
  · simp only [CPU.executeStep, hw]
    simp only [CPU.wait_key, get_key_press_first kb k hk hmin]

/-- Witness for wait_key_retry: instruction 0xF30A at 0x200; with no key
pressed the state is returned unchanged, with key 5 pressed V3 becomes 5
and the program counter advances. -/
theorem wait_key_retry_witness :
    cpuWait.executeStep gridEmpty kbNone 0 = some (.ok (cpuWait, gridEmpty))
    ∧ cpuWait.executeStep gridEmpty kbFive 0
        = some (.ok ({ cpuWait with
            pc := (cpuWait.pc + 2) % 4096,
            regs := Function.update cpuWait.regs 3 (5 : Fin 16).val }, gridEmpty)) :=
  ⟨(wait_key_retry cpuWait gridEmpty kbNone 0 3 (by decide) rfl).1
      (by decide),
   (wait_key_retry cpuWait gridEmpty kbFive 0 3 (by decide) rfl).2 5
      (by decide) (by decide)⟩

/-- Claim C8: a word outside the known patterns decodes to the hard error
UnrecognizedOpcode carrying that word; execute propagates any decode
error to the caller unchanged without dispatching an instruction; a word
inside the known patterns never makes execute return an error. -/
theorem decode_error_halts (c : CPU) (g : Grid) (kb : Keyboard) (rnd : Nat) :
    (OpCode.decodeCore (c.mem.get_instruction c.pc) = none →
        OpCode.decode (c.mem.get_instruction c.pc)
          = .error (.UnrecognizedOpcode (c.mem.get_instruction c.pc)))
    ∧ (∀ e, OpCode.decode (c.mem.get_instruction c.pc) = .error e →
        c.executeStep g kb rnd = some (.error e))
    ∧ (∀ op, OpCode.decode (c.mem.get_instruction c.pc) = .ok op →
        ∀ e, c.executeStep g kb rnd ≠ some (.error e)) :=
  by
  refine ⟨fun hn => ?_, fun e he => ?_, fun op hop e => ?_⟩
  · unfold OpCode.decode
    rw [hn]
  · simp only [CPU.executeStep, he]
  · simp only [CPU.executeStep, hop]
    cases op <;> simp [Option.map_eq_some']

/-- Witness for decode_error_halts: the unmatched word 0x00FF at the
program counter halts execution with UnrecognizedOpcode, while the
recognized word 0xF30A never produces an error. -/
theorem decode_error_halts_witness :
    cpuBad.executeStep gridEmpty kbNone 0
      = some (.error (.UnrecognizedOpcode (cpuBad.mem.get_instruction cpuBad.pc)))
    ∧ ∀ e, cpuWait.executeStep gridEmpty kbNone 0 ≠ some (.error e) :=
  ⟨(decode_error_halts cpuBad gridEmpty kbNone 0).2.1 _
      ((decode_error_halts cpuBad gridEmpty kbNone 0).1 rfl),
   fun e => (decode_error_halts cpuWait gridEmpty kbNone 0).2.2 (.WaitKey 3) rfl e⟩

/-- Toggling a visit changes exactly its target cell, by XOR with the
sprite bit. -/
theorem toggle_at (g : Grid) (v : Visit) (a : Fin 64) (b : Fin 32)
    (h : v.1 = (a, b)) : (g.toggle v) a b = xor (g a b) v.2 := by
  have hv1 := congrArg Prod.fst h
  have hv2 := congrArg Prod.snd h
  subst hv1
  subst hv2
  simp [Grid.toggle, Grid.set]

/-- Toggling a visit leaves every other cell unchanged. -/
theorem toggle_ne (g : Grid) (v : Visit) (a : Fin 64) (b : Fin 32)
    (h : v.1 ≠ (a, b)) : (g.toggle v) a b = g a b := by
  unfold Grid.toggle Grid.set
  rw [if_neg]
  rintro ⟨ha, hb⟩
  exact h (Prod.ext_iff.mpr ⟨ha.symm, hb.symm⟩)

/-- bitsAt at the cell a head visit targets starts with its bit. -/
theorem bitsAt_cons_self (v : Visit) (L : List Visit) (a : Fin 64) (b : Fin 32)
    (h : v.1 = (a, b)) : bitsAt (v :: L) a b = v.2 :: bitsAt L a b := by
  simp [bitsAt, h]

/-- bitsAt at any other cell skips the head visit. -/
theorem bitsAt_cons_ne (v : Visit) (L : List Visit) (a : Fin 64) (b : Fin 32)
    (h : v.1 ≠ (a, b)) : bitsAt (v :: L) a b = bitsAt L a b := by
  simp [bitsAt, h]

/-- The inner bit loop of Display::draw replays the row visit list; the
two collision accumulators agree because old && !(old XOR bit) equals
old && bit. -/
theorem drawAux_eq (x yj byte : Nat) (acc : Grid × Bool) :
    Display.drawAux x yj byte acc
      = applyVisits acc ((List.range 8).map
          (fun i => ((cellX (x + i), cellY yj), spriteBit byte i))) := by
  unfold applyVisits Display.drawAux
  rw [List.foldl_map]
  apply List.foldl_ext
  intro p i _
  dsimp only [visitStep, Grid.toggle, Grid.set]
  congr 1
  cases p.1 (cellX (x + i)) (cellY yj) <;> cases spriteBit byte i <;> rfl

/-- Display::draw replays exactly the visit list of the sprite. -/
theorem draw_eq_applyVisits (g : Grid) (x y : Nat) (s : List Nat) :
    Display.draw g x y s = applyVisits (g, false) (visits x y s) := by
  suffices h : ∀ (l : List (Nat × Nat)) (acc : Grid × Bool),
      l.foldl (fun acc jb => Display.drawAux x (y + jb.1) jb.2 acc) acc
        = applyVisits acc (l.flatMap (fun jb => (List.range 8).map
            (fun i => ((cellX (x + i), cellY (y + jb.1)), spriteBit jb.2 i)))) by
    exact h s.enum (g, false)
  intro l
  induction l with
  | nil => intro acc; simp [applyVisits]
  | cons a t ih =>
    intro acc
    rw [List.foldl_cons, List.flatMap_cons]
    unfold applyVisits
    rw [List.foldl_append]
    show t.foldl _ (Display.drawAux x (y + a.1) a.2 acc) = _
    rw [drawAux_eq]
    exact ih (applyVisits acc ((List.range 8).map
      (fun i => ((cellX (x + i), cellY (y + a.1)), spriteBit a.2 i))))

/-- The grid after a visit list is the pointwise XOR of the visit bits
aimed at each cell. -/
theorem applyVisits_fst (L : List Visit) : ∀ (p : Grid × Bool),
    (applyVisits p L).1 = fun a b => xor (p.1 a b) (xorAll (bitsAt L a b)) := by
  induction L with
  | nil =>
    intro p
    funext a b
    simp [applyVisits, bitsAt, xorAll]
  | cons v L ih =>
    intro p
    show (applyVisits (visitStep p v) L).1 = _
    rw [ih]
    funext a b
    by_cases h : v.1 = (a, b)
    · rw [bitsAt_cons_self v L a b h]
      have h1 : (visitStep p v).1 a b = xor (p.1 a b) v.2 := toggle_at p.1 v a b h
      rw [h1]
      show xor (xor (p.1 a b) v.2) (xorAll (bitsAt L a b))
        = xor (p.1 a b) (xor v.2 (xorAll (bitsAt L a b)))
      cases p.1 a b <;> cases v.2 <;> cases xorAll (bitsAt L a b) <;> rfl
    · rw [bitsAt_cons_ne v L a b h]
      have h1 : (visitStep p v).1 a b = p.1 a b := toggle_ne p.1 v a b h
      rw [h1]

/-- The collision flag after a visit list is the prior flag joined with
the lit-pixel scan of the list. -/
theorem applyVisits_snd (L : List Visit) : ∀ (p : Grid × Bool),
    (applyVisits p L).2 = (p.2 || scanBy id p.1 L) := by
  induction L with
  | nil => intro p; simp [applyVisits, scanBy]
  | cons v L ih =>
    intro p
    show (applyVisits (visitStep p v) L).2 = _
    rw [ih]
    show ((p.2 || (p.1 v.1.1 v.1.2 && v.2)) || scanBy id (p.1.toggle v) L) = _
    simp only [scanBy, id]
    rw [Bool.or_assoc]

/-- Decompose a scan of the whole visit list into the per-cell runs: some
visit fires exactly when on some cell the bit sequence aimed at it fires
against that cell's starting value. -/
theorem scanBy_decomp (φ : Bool → Bool) (L : List Visit) : ∀ (g : Grid),
    scanBy φ g L = true ↔ ∃ a b, runBy φ (g a b) (bitsAt L a b) = true := by
  induction L with
  | nil => intro g; simp [scanBy, runBy, bitsAt]
  | cons v L ih =>
    intro g
    simp only [scanBy, Bool.or_eq_true, Bool.and_eq_true]
    constructor
    · rintro (⟨hp, hb⟩ | htail)
      · refine ⟨v.1.1, v.1.2, ?_⟩
        rw [bitsAt_cons_self v L v.1.1 v.1.2 rfl]
        simp [runBy, hp, hb]
      · obtain ⟨a, b, hr⟩ := (ih (g.toggle v)).mp htail
        refine ⟨a, b, ?_⟩
        by_cases h : v.1 = (a, b)
        · rw [bitsAt_cons_self v L a b h]
          rw [toggle_at g v a b h] at hr
          simp only [runBy, Bool.or_eq_true]
          exact Or.inr hr
        · rw [bitsAt_cons_ne v L a b h]
          rw [toggle_ne g v a b h] at hr
          exact hr
    · rintro ⟨a, b, hr⟩
      by_cases h : v.1 = (a, b)
      · rw [bitsAt_cons_self v L a b h] at hr
        simp only [runBy, Bool.or_eq_true, Bool.and_eq_true] at hr
        rcases hr with ⟨hp, hb⟩ | htail
        · left
          have hv1 := congrArg Prod.fst h
          have hv2 := congrArg Prod.snd h
          refine ⟨?_, hb⟩
          rw [hv1, hv2]
          exact hp
        · right
          apply (ih (g.toggle v)).mpr
          refine ⟨a, b, ?_⟩
          rw [toggle_at g v a b h]
          exact htail
      · right
        apply (ih (g.toggle v)).mpr
        refine ⟨a, b, ?_⟩
        rw [bitsAt_cons_ne v L a b h] at hr
        rw [toggle_ne g v a b h]
        exact hr

/-- xorAll is the parity of the number of set bits. -/
theorem xorAll_count (bs : List Bool) :
    xorAll bs = decide (bs.count true % 2 = 1) := by
  induction bs with
  | nil => simp [xorAll]
  | cons b bs ih =>
    cases b
    · simp [xorAll, ih, List.count_cons]
    · simp only [xorAll]
      rw [ih]
      rcases Nat.mod_two_eq_zero_or_one (bs.count true) with h | h
      · simp [List.count_cons, h, Nat.add_mod]
      · simp [List.count_cons, h, Nat.add_mod]

/-- Closed form of the collision run on one cell: it fires iff at least
two bits aim at the cell, or exactly one bit does and the cell starts
lit. -/
theorem runBy_id_eq (bs : List Bool) : ∀ (v : Bool),
    runBy id v bs
      = (decide (2 ≤ bs.count true) || (decide (bs.count true = 1) && v)) := by
  induction bs with
  | nil => intro v; simp [runBy]
  | cons b bs ih =>
    intro v
    cases b
    · simp only [runBy, id]
      rw [show xor v false = v from by cases v <;> rfl, ih v]
      simp [List.count_cons]
    · simp only [runBy, id]
      rw [show xor v true = !v from by cases v <;> rfl, ih (!v)]
      rcases hm : bs.count true with _ | m1
      · cases v <;> simp [List.count_cons, hm]
      · rcases m1 with _ | m2
        · cases v <;> simp [List.count_cons, hm]
        · have h2 : 2 ≤ m2 + 1 + 1 := by omega
          have h2b : 2 ≤ m2 + 1 + 1 + 1 := by omega
          have h1 : ¬(m2 + 1 + 1 + 1 = 1) := by omega
          cases v <;> simp [List.count_cons, hm, h2, h2b, h1]

/-- Closed form of the set-pixel run on one cell: it fires iff at least
two bits aim at the cell, or exactly one bit does and the cell starts
unlit. -/
theorem runBy_not_eq (bs : List Bool) : ∀ (v : Bool),
    runBy not v bs
      = (decide (2 ≤ bs.count true) || (decide (bs.count true = 1) && !v)) := by
  induction bs with
  | nil => intro v; simp [runBy]
  | cons b bs ih =>
    intro v
    cases b
    · simp only [runBy]
      rw [show xor v false = v from by cases v <;> rfl, ih v]
      simp [List.count_cons]
    · simp only [runBy]
      rw [show xor v true = !v from by cases v <;> rfl, ih (!v)]
      rcases hm : bs.count true with _ | m1
      · cases v <;> simp [List.count_cons, hm]
      · rcases m1 with _ | m2
        · cases v <;> simp [List.count_cons, hm]
        · have h2 : 2 ≤ m2 + 1 + 1 := by omega
          have h2b : 2 ≤ m2 + 1 + 1 + 1 := by omega
          have h1 : ¬(m2 + 1 + 1 + 1 = 1) := by omega
          cases v <;> simp [List.count_cons, hm, h2, h2b, h1]

/-- Running the collision scan on a cell already XORed with all its bits
is the same as running the set-pixel scan on the original value: the
parity of the bit list decides the difference. -/
theorem runBy_swap (v : Bool) (bs : List Bool) :
    runBy id (xor v (xorAll bs)) bs = runBy not v bs := by
  rw [runBy_id_eq, runBy_not_eq, xorAll_count]
  rcases hm : bs.count true with _ | m1
  · cases v <;> simp [hm]
  · rcases m1 with _ | m2
    · cases v <;> simp [hm]
    · have h2 : 2 ≤ m2 + 1 + 1 := by omega
      cases v <;> simp [hm, h2]

/-- Claim C2: draw XORs each sprite bit onto the grid with the two
coordinates wrapped independently (the cell of bit i of byte j is
((x+i) mod 64, (y+j) mod 32)); its collision flag is exactly the scan
for a lit pixel meeting a set sprite bit; drawing the same sprite at the
same position twice restores the original grid; and the second draw
collides exactly when the first draw turned some unlit pixel on. -/
theorem draw_double_xor (g : Grid) (x y : Nat) (s : List Nat) :
    ((Display.draw g x y s).1
        = fun a b => xor (g a b) (xorAll (bitsAt (visits x y s) a b)))
    ∧ ((Display.draw g x y s).2 = scanBy id g (visits x y s))
    ∧ ((Display.draw (Display.draw g x y s).1 x y s).1 = g)
    ∧ ((Display.draw (Display.draw g x y s).1 x y s).2
        = scanBy not g (visits x y s)) :=
  by
  have hfst : ∀ (g2 : Grid), (Display.draw g2 x y s).1
      = fun a b => xor (g2 a b) (xorAll (bitsAt (visits x y s) a b)) := by
    intro g2
    rw [draw_eq_applyVisits, applyVisits_fst]
  have hsnd : ∀ (g2 : Grid), (Display.draw g2 x y s).2
      = scanBy id g2 (visits x y s) := by
    intro g2
    rw [draw_eq_applyVisits, applyVisits_snd]
    simp
  refine ⟨hfst g, hsnd g, ?_, ?_⟩
  · rw [hfst ((Display.draw g x y s).1), hfst g]
    funext a b
    show xor (xor (g a b) (xorAll (bitsAt (visits x y s) a b)))
        (xorAll (bitsAt (visits x y s) a b)) = g a b
    cases g a b <;> cases xorAll (bitsAt (visits x y s) a b) <;> rfl
  · rw [hsnd ((Display.draw g x y s).1), hfst g]
    rw [Bool.eq_iff_iff, scanBy_decomp, scanBy_decomp]
    constructor
    · rintro ⟨a, b, hr⟩
      refine ⟨a, b, ?_⟩
      rw [← runBy_swap (g a b) (bitsAt (visits x y s) a b)]
      exact hr
    · rintro ⟨a, b, hr⟩
      refine ⟨a, b, ?_⟩
      show runBy id (xor (g a b) (xorAll (bitsAt (visits x y s) a b)))
        (bitsAt (visits x y s) a b) = true
      rw [runBy_swap (g a b) (bitsAt (visits x y s) a b)]
      exact hr
